import Mathlib

/-!
Shallow embedding of the NunchukO Arduino library (NunchukO.h together with
the I2C abstraction of I2C.h) and proofs about its frame acquisition cycle,
byte decoding and calibration accessors.

The transport is modelled as a deterministic state machine over an abstract
state type: every virtual method of the I2C interface becomes a pure function
of the transport state.  The Nunchuk object carries the transport state
(member m_Wire) and the six byte frame buffer (member m_NunchukData, a list
of uint8_t values modelled as natural numbers below 256).  Machine integer
conversions are made explicit: uint8_t and uint16_t truncate modulo 256 and
65536, int8_t and int16_t wrap in two's complement, and the C int operations
appearing in the button getters (integer promotion, bitwise complement,
arithmetic shift, bitwise AND) are spelled out on mathematical integers.
Nunchuk::read additionally returns the list of bus events it caused, so that
the temporal properties (the unconditional re-arm write, the bound on byte
reads) can be stated.
-/

/-- Compile-time encryption switch NUNCHUK_DISABLE_ENCRYPTION of NunchukO.h:
plain when the macro is defined (the shipped default), obfuscated otherwise. -/
inductive Mode where
  | plain
  | obfuscated
deriving DecidableEq, Repr

/-- Bus events recorded while the driver talks to the transport; they are used
to state the temporal properties of Nunchuk::read. -/
inductive Event where
  | requestFrom (addr len : Nat)
  | readByte
  | start (addr : Nat)
  | write (b : Nat)
  | stop
deriving DecidableEq, Repr

/-- Interface I2C of I2C.h as a deterministic state machine over transport
states of type σ.  Method read returns the next byte (a uint8_t value) and
the successor state; available is documented in I2C.h as the number of bytes
available to read, a count, hence a natural number; the byte count returned
by requestFrom is ignored by Nunchuk::read and is omitted from the model. -/
structure I2C (σ : Type) where
  requestFrom : σ → Nat → Nat → σ
  available : σ → Nat
  read : σ → Nat × σ
  start : σ → Nat → σ
  write : σ → Nat → σ
  stop : σ → σ

/-- State of a Nunchuk object: the transport member m_Wire and the six byte
frame buffer m_NunchukData. -/
structure Nunchuk (σ : Type) where
  m_Wire : σ
  m_NunchukData : List Nat
deriving DecidableEq, Repr

/-- Method Nunchuk::decodeByte.  The uint8_t parameter truncates the argument
modulo 256.  With NUNCHUK_DISABLE_ENCRYPTION defined the byte is returned
unchanged; otherwise the byte is xored with 0x17 and 0x17 is added, the sum
truncated to uint8_t on return. -/
def decodeByte (mode : Mode) (b : Nat) : Nat :=
  let byte := b % 256
  match mode with
  | Mode.plain => byte
  | Mode.obfuscated => ((byte ^^^ 0x17) + 0x17) % 256

/-- Store v at index i of the frame buffer.  The C code writes
m_NunchukData[i] without a bounds check; the out of bounds case is made
explicit as none so that its unreachability can be proved. -/
def frameSet (buf : List Nat) (i v : Nat) : Option (List Nat) :=
  if i < buf.length then some (buf.set i v) else none

/-- Loop of Nunchuk::read, that is
for(i = 0; i < NUNCHUK_MESSAGE_SIZE && m_Wire.available(); i++)
m_NunchukData[i] = decodeByte(m_Wire.read());.  The counter i and the buffer
are threaded explicitly.  The truth test C applies to the int returned by
available is the comparison with 0.  The parameter fuel is a structural bound
kept equal to 6 - i by the caller, so the fuel = 0 fallthrough inside the
loop guard is unreachable.  One readByte event is recorded per consumed
byte.  The result is the final counter, transport state, buffer and events. -/
def readLoop {σ : Type} (w : I2C σ) (mode : Mode) :
    Nat → Nat → σ → List Nat → Option (Nat × σ × List Nat × List Event)
  | fuel, i, s, buf =>
    if i < 6 ∧ w.available s ≠ 0 then
      match fuel with
      | 0 => none
      | fuel' + 1 =>
        match frameSet buf i (decodeByte mode (w.read s).1) with
        | some buf' =>
          match readLoop w mode fuel' (i + 1) (w.read s).2 buf' with
          | some (j, s', buf'', evs) => some (j, s', buf'', Event.readByte :: evs)
          | none => none
        | none => none
    else some (i, s, buf, [])

/-- Method Nunchuk::read.  Requests six bytes from address 0x52, runs the
consume loop, then unconditionally issues the re-arm sequence (start 0x52,
write 0x00, stop) and returns i == 6.  The initial fuel 6 equals the loop
bound, matching i starting at 0. -/
def Nunchuk.read {σ : Type} (w : I2C σ) (mode : Mode) (n : Nunchuk σ) :
    Option (Bool × Nunchuk σ × List Event) :=
  match readLoop w mode 6 0 (w.requestFrom n.m_Wire 0x52 6) n.m_NunchukData with
  | some (i, s2, buf, evs) =>
    some (decide (i = 6),
      Nunchuk.mk (w.stop (w.write (w.start s2 0x52) 0x00)) buf,
      Event.requestFrom 0x52 6 ::
        (evs ++ [Event.start 0x52, Event.write 0x00, Event.stop]))
  | none => none

/-- Conversion of an int value to int8_t, wrapping in two's complement. -/
def int8OfInt (x : Int) : Int := (x + 128) % 256 - 128

/-- Conversion of an int value to int16_t, wrapping in two's complement. -/
def int16OfInt (x : Int) : Int := (x + 32768) % 65536 - 32768

/-- C bitwise complement on int: in two's complement, the complement of x is
-x - 1. -/
def cNot (x : Int) : Int := -x - 1

/-- Bit pattern of an int value as a 32 bit two's complement word. -/
def toPat32 (x : Int) : Nat := (x % 4294967296).toNat

/-- Int value denoted by a 32 bit two's complement word. -/
def ofPat32 (p : Nat) : Int :=
  if p < 2147483648 then (p : Int) else (p : Int) - 4294967296

/-- C bitwise AND on int, computed on the 32 bit two's complement patterns. -/
def cAnd (x y : Int) : Int := ofPat32 (Nat.land (toPat32 x) (toPat32 y))

/-- C conversion from bool to int, as applied to the subterm 1 == 1 of the
button getters. -/
def cOfBool (b : Bool) : Int := if b then 1 else 0

/-- Method Nunchuk::getButtonZ, the C expression
(~m_NunchukData[5] >> 0) & 1 == 1.  In C the comparison binds tighter than &,
so the right operand of & is the int 1 produced by 1 == 1; the uint8_t is
promoted to int before the complement, the shift on the negative int is
arithmetic, and the int result converts to bool as a test against 0. -/
def Nunchuk.getButtonZ {σ : Type} (n : Nunchuk σ) : Bool :=
  decide (cAnd (cNot (n.m_NunchukData.getD 5 0 : Int) >>> (0 : Nat))
    (cOfBool ((1 : Int) == 1)) ≠ 0)

/-- Method Nunchuk::getButtonC, the C expression
(~m_NunchukData[5] >> 1) & 1 == 1, read with the same precedence as
Nunchuk::getButtonZ. -/
def Nunchuk.getButtonC {σ : Type} (n : Nunchuk σ) : Bool :=
  decide (cAnd (cNot (n.m_NunchukData.getD 5 0 : Int) >>> (1 : Nat))
    (cOfBool ((1 : Int) == 1)) ≠ 0)

/-- Method Nunchuk::getJoystickRawX: m_NunchukData[0]. -/
def Nunchuk.getJoystickRawX {σ : Type} (n : Nunchuk σ) : Nat :=
  n.m_NunchukData.getD 0 0

/-- Method Nunchuk::getJoystickRawY: m_NunchukData[1]. -/
def Nunchuk.getJoystickRawY {σ : Type} (n : Nunchuk σ) : Nat :=
  n.m_NunchukData.getD 1 0

/-- Method Nunchuk::getAccelRawX:
((uint16_t) m_NunchukData[2] << 2) | ((m_NunchukData[5] >> 2) & 3),
returned as uint16_t. -/
def Nunchuk.getAccelRawX {σ : Type} (n : Nunchuk σ) : Nat :=
  (((n.m_NunchukData.getD 2 0) <<< 2) |||
    (((n.m_NunchukData.getD 5 0) >>> 2) &&& 3)) % 65536

/-- Method Nunchuk::getAccelRawY:
((uint16_t) m_NunchukData[3] << 2) | ((m_NunchukData[5] >> 4) & 3),
returned as uint16_t. -/
def Nunchuk.getAccelRawY {σ : Type} (n : Nunchuk σ) : Nat :=
  (((n.m_NunchukData.getD 3 0) <<< 2) |||
    (((n.m_NunchukData.getD 5 0) >>> 4) &&& 3)) % 65536

/-- Method Nunchuk::getAccelRawZ:
((uint16_t) m_NunchukData[4] << 2) | ((m_NunchukData[5] >> 6) & 3),
returned as uint16_t. -/
def Nunchuk.getAccelRawZ {σ : Type} (n : Nunchuk σ) : Nat :=
  (((n.m_NunchukData.getD 4 0) <<< 2) |||
    (((n.m_NunchukData.getD 5 0) >>> 6) &&& 3)) % 65536

/-- Method Nunchuk::getJoystickX:
(int8_t)((int16_t) getJoystickRawX() - NUNCHUK_JOYSTICK_X_ZERO). -/
def Nunchuk.getJoystickX {σ : Type} (n : Nunchuk σ) : Int :=
  int8OfInt (int16OfInt (n.getJoystickRawX : Int) - 128)

/-- Method Nunchuk::getJoystickY:
(int8_t)((int16_t) getJoystickRawY() - NUNCHUK_JOYSTICK_Y_ZERO). -/
def Nunchuk.getJoystickY {σ : Type} (n : Nunchuk σ) : Int :=
  int8OfInt (int16OfInt (n.getJoystickRawY : Int) - 128)

/-- Method Nunchuk::getAccelX:
(int16_t) getAccelRawX() - (int16_t) NUNCHUK_ACCEL_X_ZERO, returned as
int16_t. -/
def Nunchuk.getAccelX {σ : Type} (n : Nunchuk σ) : Int :=
  int16OfInt (int16OfInt (n.getAccelRawX : Int) - int16OfInt 512)

/-- Method Nunchuk::getAccelY:
(int16_t) getAccelRawY() - (int16_t) NUNCHUK_ACCEL_Y_ZERO, returned as
int16_t. -/
def Nunchuk.getAccelY {σ : Type} (n : Nunchuk σ) : Int :=
  int16OfInt (int16OfInt (n.getAccelRawY : Int) - int16OfInt 512)

/-- Method Nunchuk::getAccelZ:
(int16_t) getAccelRawZ() - (int16_t) NUNCHUK_ACCEL_Z_ZERO, returned as
int16_t. -/
def Nunchuk.getAccelZ {σ : Type} (n : Nunchuk σ) : Int :=
  int16OfInt (int16OfInt (n.getAccelRawZ : Int) - int16OfInt 512)

/-- Transport state after k calls to read, starting from state s. -/
def iterRead {σ : Type} (w : I2C σ) (s : σ) : Nat → σ
  | 0 => s
  | k + 1 => (w.read (iterRead w s k)).2

/-- Byte produced by the transport on its k-th read call, counting from 0. -/
def nthByte {σ : Type} (w : I2C σ) (s : σ) (k : Nat) : Nat :=
  (w.read (iterRead w s k)).1

/-- Wellformedness of a frame buffer: exactly six uint8_t entries. -/
def FrameWF (buf : List Nat) : Prop :=
  buf.length = 6 ∧ ∀ b ∈ buf, b < 256

instance : DecidablePred FrameWF := fun buf => by
  unfold FrameWF
  infer_instance

/-- Concrete list backed transport: requestFrom loads the pending frame,
available counts the pending bytes, read pops the first pending byte (its
uint8_t return truncates modulo 256). -/
def listI2C (frame : List Nat) : I2C (List Nat) where
  requestFrom := fun _ _ _ => frame
  available := fun s => s.length
  read := fun s =>
    match s with
    | [] => (0, [])
    | b :: rest => (b % 256, rest)
  start := fun s _ => s
  write := fun s _ => s
  stop := fun s => s

/-- End to end scenario of the spec: plain mode, a transport yielding
0x80 0x80 0x80 0x80 0x80 0x00 after the request, zeroed initial frame. -/
def endToEndRead : Option (Bool × Nunchuk (List Nat) × List Event) :=
  Nunchuk.read (listI2C [0x80, 0x80, 0x80, 0x80, 0x80, 0x00]) Mode.plain
    (Nunchuk.mk [] [0, 0, 0, 0, 0, 0])

/-- Nunchuk state after the end to end scenario read. -/
def endToEndNunchuk : Nunchuk (List Nat) :=
  match endToEndRead with
  | some (_, nk, _) => nk
  | none => Nunchuk.mk [] []

theorem getD_set_self (buf : List Nat) : ∀ (i v : Nat), i < buf.length →
    (buf.set i v).getD i 0 = v := by
  induction buf with
  | nil => intro i v h; simp at h
  | cons a t ih =>
    intro i v h
    cases i with
    | zero => rfl
    | succ j =>
      rw [List.set_cons_succ, List.getD_cons_succ]
      exact ih j v (by simpa using h)

theorem getD_set_ne (buf : List Nat) : ∀ (i p v : Nat), p ≠ i →
    (buf.set i v).getD p 0 = buf.getD p 0 := by
  induction buf with
  | nil => intro i p v _; rfl
  | cons a t ih =>
    intro i p v hne
    cases i with
    | zero =>
      cases p with
      | zero => exact absurd rfl hne
      | succ q => rfl
    | succ j =>
      cases p with
      | zero => rfl
      | succ q =>
        rw [List.set_cons_succ, List.getD_cons_succ, List.getD_cons_succ]
        exact ih j q v (by omega)

theorem iterRead_succ_front {σ : Type} (w : I2C σ) (s : σ) (k : Nat) :
    iterRead w s (k + 1) = iterRead w (w.read s).2 k := by
  induction k with
  | zero => rfl
  | succ j ih =>
    have h1 : iterRead w s (j + 1 + 1) = (w.read (iterRead w s (j + 1))).2 := rfl
    rw [h1, ih]
    rfl

theorem nthByte_succ_front {σ : Type} (w : I2C σ) (s : σ) (k : Nat) :
    nthByte w s (k + 1) = nthByte w (w.read s).2 k := by
  unfold nthByte
  rw [iterRead_succ_front]

theorem readLoop_spec {σ : Type} (w : I2C σ) (mode : Mode) :
    ∀ fuel i s buf, i + fuel = 6 → buf.length = 6 →
      ∃ n buf',
        readLoop w mode fuel i s buf =
          some (i + n, iterRead w s n, buf', List.replicate n Event.readByte) ∧
        n ≤ fuel ∧
        (∀ j, j < n → w.available (iterRead w s j) ≠ 0) ∧
        (i + n < 6 → w.available (iterRead w s n) = 0) ∧
        buf'.length = 6 ∧
        (∀ p, p < 6 → (p < i ∨ i + n ≤ p) → buf'.getD p 0 = buf.getD p 0) ∧
        (∀ q, q < n → buf'.getD (i + q) 0 = decodeByte mode (nthByte w s q)) := by
  intro fuel
  induction fuel with
  | zero =>
    intro i s buf hi hbuf
    refine ⟨0, buf, ?_, Nat.le_refl 0, ?_, ?_, hbuf, ?_, ?_⟩
    · rw [readLoop]
      have hcond : ¬(i < 6 ∧ w.available s ≠ 0) := fun hc => absurd hc.1 (by omega)
      rw [if_neg hcond]
      simp [iterRead]
    · intro j hj; exact absurd hj (Nat.not_lt_zero j)
    · intro hlt; exact absurd hlt (by omega)
    · intro p _ _; rfl
    · intro q hq; exact absurd hq (Nat.not_lt_zero q)
  | succ f ih =>
    intro i s buf hi hbuf
    have hi6 : i < 6 := by omega
    by_cases hav : w.available s = 0
    · refine ⟨0, buf, ?_, Nat.zero_le _, ?_, ?_, hbuf, ?_, ?_⟩
      · rw [readLoop]
        have hcond : ¬(i < 6 ∧ w.available s ≠ 0) := fun hc => hc.2 hav
        rw [if_neg hcond]
        simp [iterRead]
      · intro j hj; exact absurd hj (Nat.not_lt_zero j)
      · intro _; simpa [iterRead] using hav
      · intro p _ _; rfl
      · intro q hq; exact absurd hq (Nat.not_lt_zero q)
    · have hcond : i < 6 ∧ w.available s ≠ 0 := ⟨hi6, hav⟩
      have hset : frameSet buf i (decodeByte mode (w.read s).1) =
          some (buf.set i (decodeByte mode (w.read s).1)) := by
        unfold frameSet
        rw [if_pos (show i < buf.length by omega)]
      obtain ⟨n', buf', heq, hle, hava, havstop, hlen, huntouched, hstored⟩ :=
        ih (i + 1) (w.read s).2 (buf.set i (decodeByte mode (w.read s).1))
          (by omega) (by rw [List.length_set]; exact hbuf)
      refine ⟨n' + 1, buf', ?_, by omega, ?_, ?_, hlen, ?_, ?_⟩
      · rw [readLoop]
        simp only [if_pos hcond, hset, heq]
        rw [iterRead_succ_front w s n', List.replicate_succ]
        have harith : i + (n' + 1) = i + 1 + n' := by omega
        rw [harith]
      · intro j hj
        cases j with
        | zero => simpa [iterRead] using hav
        | succ j' =>
          rw [iterRead_succ_front w s j']
          exact hava j' (by omega)
      · intro hlt
        rw [iterRead_succ_front w s n']
        exact havstop (by omega)
      · intro p hp hcase
        have hne : p ≠ i := by omega
        rw [huntouched p hp (by omega)]
        exact getD_set_ne buf i p _ hne
      · intro q hq
        cases q with
        | zero =>
          have h0 : buf'.getD i 0 =
              (buf.set i (decodeByte mode (w.read s).1)).getD i 0 :=
            huntouched i (by omega) (Or.inl (by omega))
          rw [show i + 0 = i from rfl, h0, getD_set_self buf i _ (by omega)]
          rfl
        | succ q' =>
          have harith : i + (q' + 1) = i + 1 + q' := by omega
          rw [harith, hstored q' (by omega), nthByte_succ_front w s q']

theorem read_spec {σ : Type} (w : I2C σ) (mode : Mode) (nk : Nunchuk σ)
    (h : nk.m_NunchukData.length = 6) :
    ∃ n buf',
      n ≤ 6 ∧
      Nunchuk.read w mode nk = some (decide (n = 6),
        Nunchuk.mk (w.stop (w.write (w.start
          (iterRead w (w.requestFrom nk.m_Wire 0x52 6) n) 0x52) 0x00)) buf',
        Event.requestFrom 0x52 6 ::
          (List.replicate n Event.readByte ++
            [Event.start 0x52, Event.write 0x00, Event.stop])) ∧
      (∀ j, j < n → w.available (iterRead w (w.requestFrom nk.m_Wire 0x52 6) j) ≠ 0) ∧
      (n < 6 → w.available (iterRead w (w.requestFrom nk.m_Wire 0x52 6) n) = 0) ∧
      buf'.length = 6 ∧
      (∀ p, n ≤ p → p < 6 → buf'.getD p 0 = nk.m_NunchukData.getD p 0) ∧
      (∀ q, q < n →
        buf'.getD q 0 = decodeByte mode (nthByte w (w.requestFrom nk.m_Wire 0x52 6) q)) := by
  obtain ⟨n, buf', heq, hle, hava, hstop, hlen, hunt, hstor⟩ :=
    readLoop_spec w mode 6 0 (w.requestFrom nk.m_Wire 0x52 6) nk.m_NunchukData
      (by omega) h
  refine ⟨n, buf', hle, ?_, hava, ?_, hlen, ?_, ?_⟩
  · unfold Nunchuk.read
    rw [heq]
    simp only [Nat.zero_add]
  · intro hlt
    exact hstop (by omega)
  · intro p hnp hp6
    exact hunt p hp6 (Or.inr (by omega))
  · intro q hq
    have := hstor q hq
    simpa using this

theorem frameWF_getD (buf : List Nat) (h : FrameWF buf) (i : Nat) (hi : i < 6) :
    buf.getD i 0 < 256 := by
  obtain ⟨hlen, hmem⟩ := h
  have hi' : i < buf.length := by omega
  rw [List.getD_eq_getElem buf 0 hi']
  exact hmem _ (List.getElem_mem hi')

set_option maxRecDepth 4000 in
theorem buttonBits : ∀ v : Nat, v < 256 →
    (decide (cAnd (cNot (v : Int) >>> (0 : Nat)) (cOfBool ((1 : Int) == 1)) ≠ 0)
        = !(v.testBit 0)) ∧
    (decide (cAnd (cNot (v : Int) >>> (1 : Nat)) (cOfBool ((1 : Int) == 1)) ≠ 0)
        = !(v.testBit 1)) := by
  decide

/-- C7: in plain mode (encryption disabled) decodeByte is the identity: for
every byte b, decodeByte applied to b returns b itself. -/
theorem decodeByte_plain_identity (b : Nat) (hb : b < 256) :
    decodeByte Mode.plain b = b := by
  unfold decodeByte
  simp [Nat.mod_eq_of_lt hb]

theorem decodeByte_plain_identity_witness :
    (200 : Nat) < 256 ∧ decodeByte Mode.plain 200 = 200 :=
  ⟨by decide, decodeByte_plain_identity 200 (by decide)⟩

/-- C6: in obfuscated mode, for every byte b below 256, decodeByte computes
((b xor 0x17) + 0x17) modulo 256, the addition wrapping as unsigned eight bit
arithmetic. -/
theorem decodeByte_obfuscated_formula (b : Nat) (hb : b < 256) :
    decodeByte Mode.obfuscated b = ((b ^^^ 0x17) + 0x17) % 256 := by
  unfold decodeByte
  simp [Nat.mod_eq_of_lt hb]

theorem decodeByte_obfuscated_formula_witness :
    (250 : Nat) < 256 ∧ decodeByte Mode.obfuscated 250 = ((250 ^^^ 0x17) + 0x17) % 256 :=
  ⟨by decide, decodeByte_obfuscated_formula 250 (by decide)⟩

/-- C3: getButtonZ returns the inverse of bit 0 of frame byte 5 and getButtonC
the inverse of bit 1; byte 5 equal to 0b00000000 makes both return true and
byte 5 equal to 0b00000011 makes both return false, settling the operator
precedence question in the two button expressions. -/
theorem buttons_invert_bits {σ : Type} (nk : Nunchuk σ)
    (h : FrameWF nk.m_NunchukData) :
    (nk.getButtonZ = !((nk.m_NunchukData.getD 5 0).testBit 0)) ∧
    (nk.getButtonC = !((nk.m_NunchukData.getD 5 0).testBit 1)) ∧
    (nk.m_NunchukData.getD 5 0 = 0 → nk.getButtonZ = true ∧ nk.getButtonC = true) ∧
    (nk.m_NunchukData.getD 5 0 = 3 → nk.getButtonZ = false ∧ nk.getButtonC = false) := by
  have hv : nk.m_NunchukData.getD 5 0 < 256 := frameWF_getD _ h 5 (by omega)
  obtain ⟨hz, hc⟩ := buttonBits _ hv
  have hz' : nk.getButtonZ = !((nk.m_NunchukData.getD 5 0).testBit 0) := hz
  have hc' : nk.getButtonC = !((nk.m_NunchukData.getD 5 0).testBit 1) := hc
  refine ⟨hz', hc', ?_, ?_⟩
  · intro h0
    constructor
    · rw [hz', h0]; decide
    · rw [hc', h0]; decide
  · intro h3
    constructor
    · rw [hz', h3]; decide
    · rw [hc', h3]; decide

theorem buttons_invert_bits_witness :
    FrameWF (Nunchuk.mk () [7, 7, 7, 7, 7, 2]).m_NunchukData ∧
    (((Nunchuk.mk () [7, 7, 7, 7, 7, 2]).getButtonZ =
        !(((Nunchuk.mk () [7, 7, 7, 7, 7, 2]).m_NunchukData.getD 5 0).testBit 0)) ∧
      ((Nunchuk.mk () [7, 7, 7, 7, 7, 2]).getButtonC =
        !(((Nunchuk.mk () [7, 7, 7, 7, 7, 2]).m_NunchukData.getD 5 0).testBit 1)) ∧
      ((Nunchuk.mk () [7, 7, 7, 7, 7, 2]).m_NunchukData.getD 5 0 = 0 →
        (Nunchuk.mk () [7, 7, 7, 7, 7, 2]).getButtonZ = true ∧
        (Nunchuk.mk () [7, 7, 7, 7, 7, 2]).getButtonC = true) ∧
      ((Nunchuk.mk () [7, 7, 7, 7, 7, 2]).m_NunchukData.getD 5 0 = 3 →
        (Nunchuk.mk () [7, 7, 7, 7, 7, 2]).getButtonZ = false ∧
        (Nunchuk.mk () [7, 7, 7, 7, 7, 2]).getButtonC = false)) :=
  ⟨by decide, buttons_invert_bits (Nunchuk.mk () [7, 7, 7, 7, 7, 2]) (by decide)⟩

/-- C5: for every raw joystick byte v below 256, getJoystickX on a frame whose
byte 0 is v returns exactly v - 128 (the narrowing to int8_t never wraps), and
likewise getJoystickY for byte 1; raw 128 maps to 0, raw 0 to -128 and raw 255
to 127. -/
theorem joystick_calibration {σ : Type} (nk : Nunchuk σ) (v u : Nat)
    (hv : v < 256) (hu : u < 256)
    (h0 : nk.m_NunchukData.getD 0 0 = v)
    (h1 : nk.m_NunchukData.getD 1 0 = u) :
    nk.getJoystickX = (v : Int) - 128 ∧
    nk.getJoystickY = (u : Int) - 128 ∧
    (v = 128 → nk.getJoystickX = 0) ∧
    (v = 0 → nk.getJoystickX = -128) ∧
    (v = 255 → nk.getJoystickX = 127) := by
  have hx : nk.getJoystickX = (v : Int) - 128 := by
    unfold Nunchuk.getJoystickX Nunchuk.getJoystickRawX
    rw [h0]
    unfold int8OfInt int16OfInt
    omega
  have hy : nk.getJoystickY = (u : Int) - 128 := by
    unfold Nunchuk.getJoystickY Nunchuk.getJoystickRawY
    rw [h1]
    unfold int8OfInt int16OfInt
    omega
  refine ⟨hx, hy, ?_, ?_, ?_⟩
  · intro hval; rw [hx, hval]; decide
  · intro hval; rw [hx, hval]; decide
  · intro hval; rw [hx, hval]; decide

theorem joystick_calibration_witness :
    (128 : Nat) < 256 ∧ (0 : Nat) < 256 ∧
    ((Nunchuk.mk () [128, 0, 9, 9, 9, 9]).m_NunchukData.getD 0 0 = 128) ∧
    ((Nunchuk.mk () [128, 0, 9, 9, 9, 9]).m_NunchukData.getD 1 0 = 0) ∧
    ((Nunchuk.mk () [128, 0, 9, 9, 9, 9]).getJoystickX = (128 : Int) - 128 ∧
      (Nunchuk.mk () [128, 0, 9, 9, 9, 9]).getJoystickY = (0 : Int) - 128 ∧
      ((128 : Nat) = 128 → (Nunchuk.mk () [128, 0, 9, 9, 9, 9]).getJoystickX = 0) ∧
      ((128 : Nat) = 0 → (Nunchuk.mk () [128, 0, 9, 9, 9, 9]).getJoystickX = -128) ∧
      ((128 : Nat) = 255 → (Nunchuk.mk () [128, 0, 9, 9, 9, 9]).getJoystickX = 127)) :=
  ⟨by decide, by decide, rfl, rfl,
    joystick_calibration (Nunchuk.mk () [128, 0, 9, 9, 9, 9]) 128 0
      (by decide) (by decide) rfl rfl⟩

theorem accelRaw_bound (a b k : Nat) (ha : a < 256) :
    ((a <<< 2) ||| ((b >>> k) &&& 3)) < 1024 := by
  have e1 : a <<< 2 = a * 4 := by rw [Nat.shiftLeft_eq]
  have h1 : a <<< 2 < 2 ^ 10 := by
    rw [e1]
    show a * 4 < 1024
    omega
  have hle : (b >>> k) &&& 3 ≤ 3 := @Nat.and_le_right (b >>> k) 3
  have h2 : (b >>> k) &&& 3 < 2 ^ 10 := by
    show (b >>> k) &&& 3 < 1024
    omega
  exact Nat.or_lt_two_pow h1 h2

/-- C4: for every wellformed frame, the raw acceleration X value equals
(buffer byte 2 shifted left by 2) or-ed with bits 2 and 3 of byte 5 and lies
in [0, 1023]; analogously for Y with bits 4 and 5 and for Z with bits 6 and 7
of byte 5; and the calibrated getters equal the raw value minus 512, the
int16_t result never wrapping.  In particular byte 2 equal to 0x80 with byte 5
equal to 0b00001100 gives raw 515 and calibrated 3. -/
theorem accel_calibration {σ : Type} (nk : Nunchuk σ)
    (h : FrameWF nk.m_NunchukData) :
    (nk.getAccelRawX = ((nk.m_NunchukData.getD 2 0) <<< 2) |||
        (((nk.m_NunchukData.getD 5 0) >>> 2) &&& 3)) ∧
    nk.getAccelRawX ≤ 1023 ∧
    (nk.getAccelRawY = ((nk.m_NunchukData.getD 3 0) <<< 2) |||
        (((nk.m_NunchukData.getD 5 0) >>> 4) &&& 3)) ∧
    nk.getAccelRawY ≤ 1023 ∧
    (nk.getAccelRawZ = ((nk.m_NunchukData.getD 4 0) <<< 2) |||
        (((nk.m_NunchukData.getD 5 0) >>> 6) &&& 3)) ∧
    nk.getAccelRawZ ≤ 1023 ∧
    nk.getAccelX = (nk.getAccelRawX : Int) - 512 ∧
    nk.getAccelY = (nk.getAccelRawY : Int) - 512 ∧
    nk.getAccelZ = (nk.getAccelRawZ : Int) - 512 ∧
    (nk.m_NunchukData.getD 2 0 = 128 → nk.m_NunchukData.getD 5 0 = 12 →
      nk.getAccelRawX = 515 ∧ nk.getAccelX = 3) := by
  have h2 := frameWF_getD _ h 2 (by omega)
  have h3 := frameWF_getD _ h 3 (by omega)
  have h4 := frameWF_getD _ h 4 (by omega)
  have hbX := accelRaw_bound (nk.m_NunchukData.getD 2 0) (nk.m_NunchukData.getD 5 0) 2 h2
  have hbY := accelRaw_bound (nk.m_NunchukData.getD 3 0) (nk.m_NunchukData.getD 5 0) 4 h3
  have hbZ := accelRaw_bound (nk.m_NunchukData.getD 4 0) (nk.m_NunchukData.getD 5 0) 6 h4
  have heX : nk.getAccelRawX = ((nk.m_NunchukData.getD 2 0) <<< 2) |||
      (((nk.m_NunchukData.getD 5 0) >>> 2) &&& 3) := by
    unfold Nunchuk.getAccelRawX
    exact Nat.mod_eq_of_lt (by omega)
  have heY : nk.getAccelRawY = ((nk.m_NunchukData.getD 3 0) <<< 2) |||
      (((nk.m_NunchukData.getD 5 0) >>> 4) &&& 3) := by
    unfold Nunchuk.getAccelRawY
    exact Nat.mod_eq_of_lt (by omega)
  have heZ : nk.getAccelRawZ = ((nk.m_NunchukData.getD 4 0) <<< 2) |||
      (((nk.m_NunchukData.getD 5 0) >>> 6) &&& 3) := by
    unfold Nunchuk.getAccelRawZ
    exact Nat.mod_eq_of_lt (by omega)
  have hcal : ∀ r : Nat, r ≤ 1023 →
      int16OfInt (int16OfInt (r : Int) - int16OfInt 512) = (r : Int) - 512 := by
    intro r hr
    unfold int16OfInt
    omega
  have hX : nk.getAccelX = (nk.getAccelRawX : Int) - 512 := by
    unfold Nunchuk.getAccelX
    exact hcal _ (by omega)
  have hY : nk.getAccelY = (nk.getAccelRawY : Int) - 512 := by
    unfold Nunchuk.getAccelY
    exact hcal _ (by omega)
  have hZ : nk.getAccelZ = (nk.getAccelRawZ : Int) - 512 := by
    unfold Nunchuk.getAccelZ
    exact hcal _ (by omega)
  refine ⟨heX, by omega, heY, by omega, heZ, by omega, hX, hY, hZ, ?_⟩
  intro ha hb
  have hraw : nk.getAccelRawX = 515 := by
    rw [heX, ha, hb]
    decide
  constructor
  · exact hraw
  · rw [hX, hraw]
    decide

theorem accel_calibration_witness :
    FrameWF (Nunchuk.mk () [0, 0, 128, 4, 5, 12]).m_NunchukData ∧
    (((Nunchuk.mk () [0, 0, 128, 4, 5, 12]).getAccelRawX =
        (((Nunchuk.mk () [0, 0, 128, 4, 5, 12]).m_NunchukData.getD 2 0) <<< 2) |||
          ((((Nunchuk.mk () [0, 0, 128, 4, 5, 12]).m_NunchukData.getD 5 0) >>> 2) &&& 3)) ∧
      (Nunchuk.mk () [0, 0, 128, 4, 5, 12]).getAccelRawX ≤ 1023 ∧
      ((Nunchuk.mk () [0, 0, 128, 4, 5, 12]).getAccelRawY =
        (((Nunchuk.mk () [0, 0, 128, 4, 5, 12]).m_NunchukData.getD 3 0) <<< 2) |||
          ((((Nunchuk.mk () [0, 0, 128, 4, 5, 12]).m_NunchukData.getD 5 0) >>> 4) &&& 3)) ∧
      (Nunchuk.mk () [0, 0, 128, 4, 5, 12]).getAccelRawY ≤ 1023 ∧
      ((Nunchuk.mk () [0, 0, 128, 4, 5, 12]).getAccelRawZ =
        (((Nunchuk.mk () [0, 0, 128, 4, 5, 12]).m_NunchukData.getD 4 0) <<< 2) |||
          ((((Nunchuk.mk () [0, 0, 128, 4, 5, 12]).m_NunchukData.getD 5 0) >>> 6) &&& 3)) ∧
      (Nunchuk.mk () [0, 0, 128, 4, 5, 12]).getAccelRawZ ≤ 1023 ∧
      (Nunchuk.mk () [0, 0, 128, 4, 5, 12]).getAccelX =
        ((Nunchuk.mk () [0, 0, 128, 4, 5, 12]).getAccelRawX : Int) - 512 ∧
      (Nunchuk.mk () [0, 0, 128, 4, 5, 12]).getAccelY =
        ((Nunchuk.mk () [0, 0, 128, 4, 5, 12]).getAccelRawY : Int) - 512 ∧
      (Nunchuk.mk () [0, 0, 128, 4, 5, 12]).getAccelZ =
        ((Nunchuk.mk () [0, 0, 128, 4, 5, 12]).getAccelRawZ : Int) - 512 ∧
      ((Nunchuk.mk () [0, 0, 128, 4, 5, 12]).m_NunchukData.getD 2 0 = 128 →
        (Nunchuk.mk () [0, 0, 128, 4, 5, 12]).m_NunchukData.getD 5 0 = 12 →
        (Nunchuk.mk () [0, 0, 128, 4, 5, 12]).getAccelRawX = 515 ∧
        (Nunchuk.mk () [0, 0, 128, 4, 5, 12]).getAccelX = 3)) :=
  ⟨by decide, accel_calibration (Nunchuk.mk () [0, 0, 128, 4, 5, 12]) (by decide)⟩

theorem count_readByte_events (n : Nat) :
    (Event.requestFrom 0x52 6 :: (List.replicate n Event.readByte ++
      [Event.start 0x52, Event.write 0x00, Event.stop])).count Event.readByte = n := by
  simp [List.count_cons, List.count_append, List.count_replicate]

theorem count_start_events (n : Nat) :
    (Event.requestFrom 0x52 6 :: (List.replicate n Event.readByte ++
      [Event.start 0x52, Event.write 0x00, Event.stop])).count (Event.start 0x52) = 1 := by
  simp [List.count_cons, List.count_append, List.count_replicate]

theorem count_write_events (n : Nat) :
    (Event.requestFrom 0x52 6 :: (List.replicate n Event.readByte ++
      [Event.start 0x52, Event.write 0x00, Event.stop])).count (Event.write 0x00) = 1 := by
  simp [List.count_cons, List.count_append, List.count_replicate]

theorem count_stop_events (n : Nat) :
    (Event.requestFrom 0x52 6 :: (List.replicate n Event.readByte ++
      [Event.start 0x52, Event.write 0x00, Event.stop])).count Event.stop = 1 := by
  simp [List.count_cons, List.count_append, List.count_replicate]

/-- C1: for every transport behavior, Nunchuk::read consumes bytes one at a
time while fewer than six have been consumed and the transport reports at
least one available byte, stores decodeByte of each consumed byte at
successive frame indices starting at 0, and returns true if and only if
exactly six bytes were obtained; with fewer than six it returns false. -/
theorem read_loop_contract {σ : Type} (w : I2C σ) (mode : Mode) (nk : Nunchuk σ)
    (h : nk.m_NunchukData.length = 6) :
    ∃ ok nk' evs, Nunchuk.read w mode nk = some (ok, nk', evs) ∧
      ∃ n, n ≤ 6 ∧
        evs.count Event.readByte = n ∧
        (∀ j, j < n → w.available (iterRead w (w.requestFrom nk.m_Wire 0x52 6) j) ≠ 0) ∧
        (n < 6 → w.available (iterRead w (w.requestFrom nk.m_Wire 0x52 6) n) = 0) ∧
        (∀ j, j < n → nk'.m_NunchukData.getD j 0 =
          decodeByte mode (nthByte w (w.requestFrom nk.m_Wire 0x52 6) j)) ∧
        (ok = true ↔ n = 6) ∧
        (n < 6 → ok = false) := by
  obtain ⟨n, buf', hle, heq, hava, hstop, hlen, hunt, hstor⟩ := read_spec w mode nk h
  refine ⟨decide (n = 6), _, _, heq, n, hle, count_readByte_events n, hava, hstop, ?_, ?_, ?_⟩
  · intro j hj
    exact hstor j hj
  · exact decide_eq_true_iff
  · intro hlt
    simp only [decide_eq_false_iff_not]
    omega

theorem read_loop_contract_witness :
    (Nunchuk.mk ([] : List Nat) [9, 9, 9, 9, 9, 9]).m_NunchukData.length = 6 ∧
    (∃ ok nk' evs,
      Nunchuk.read (listI2C [1, 2, 3, 4]) Mode.plain
          (Nunchuk.mk ([] : List Nat) [9, 9, 9, 9, 9, 9]) = some (ok, nk', evs) ∧
      ∃ n, n ≤ 6 ∧
        evs.count Event.readByte = n ∧
        (∀ j, j < n → (listI2C [1, 2, 3, 4]).available
          (iterRead (listI2C [1, 2, 3, 4])
            ((listI2C [1, 2, 3, 4]).requestFrom
              (Nunchuk.mk ([] : List Nat) [9, 9, 9, 9, 9, 9]).m_Wire 0x52 6) j) ≠ 0) ∧
        (n < 6 → (listI2C [1, 2, 3, 4]).available
          (iterRead (listI2C [1, 2, 3, 4])
            ((listI2C [1, 2, 3, 4]).requestFrom
              (Nunchuk.mk ([] : List Nat) [9, 9, 9, 9, 9, 9]).m_Wire 0x52 6) n) = 0) ∧
        (∀ j, j < n → nk'.m_NunchukData.getD j 0 =
          decodeByte Mode.plain (nthByte (listI2C [1, 2, 3, 4])
            ((listI2C [1, 2, 3, 4]).requestFrom
              (Nunchuk.mk ([] : List Nat) [9, 9, 9, 9, 9, 9]).m_Wire 0x52 6) j)) ∧
        (ok = true ↔ n = 6) ∧
        (n < 6 → ok = false)) :=
  ⟨rfl, read_loop_contract (listI2C [1, 2, 3, 4]) Mode.plain
    (Nunchuk.mk ([] : List Nat) [9, 9, 9, 9, 9, 9]) rfl⟩

/-- C2: for every prior frame state and every transport that yields only
k < 6 bytes, read returns false, the frame indices below k hold the newly
read decoded bytes, the indices from k to 5 retain exactly their pre-call
values, and the re-arm write is still issued exactly once. -/
theorem read_partial_frame {σ : Type} (w : I2C σ) (mode : Mode) (nk : Nunchuk σ)
    (h : nk.m_NunchukData.length = 6) (k : Nat) (hk : k < 6)
    (havail : ∀ j, j < k →
      w.available (iterRead w (w.requestFrom nk.m_Wire 0x52 6) j) ≠ 0)
    (hout : w.available (iterRead w (w.requestFrom nk.m_Wire 0x52 6) k) = 0) :
    ∃ nk' evs, Nunchuk.read w mode nk = some (false, nk', evs) ∧
      (∀ j, j < k → nk'.m_NunchukData.getD j 0 =
        decodeByte mode (nthByte w (w.requestFrom nk.m_Wire 0x52 6) j)) ∧
      (∀ p, k ≤ p → p < 6 → nk'.m_NunchukData.getD p 0 = nk.m_NunchukData.getD p 0) ∧
      evs.count (Event.start 0x52) = 1 ∧
      evs.count (Event.write 0x00) = 1 ∧
      evs.count Event.stop = 1 := by
  obtain ⟨n, buf', hle, heq, hava, hstop, hlen, hunt, hstor⟩ := read_spec w mode nk h
  have hnk : n = k := by
    rcases Nat.lt_trichotomy n k with hlt | heqq | hgt
    · exact absurd (hstop (by omega)) (havail n (by omega))
    · exact heqq
    · exact absurd hout (hava k (by omega))
  subst hnk
  have hdec : decide (n = 6) = false := decide_eq_false (by omega)
  rw [hdec] at heq
  exact ⟨_, _, heq, hstor, fun p hp hp6 => hunt p hp hp6,
    count_start_events n, count_write_events n, count_stop_events n⟩

theorem read_partial_frame_witness :
    (Nunchuk.mk ([] : List Nat) [1, 2, 3, 4, 5, 6]).m_NunchukData.length = 6 ∧
    (3 : Nat) < 6 ∧
    (∀ j, j < 3 → (listI2C [10, 20, 30]).available
      (iterRead (listI2C [10, 20, 30])
        ((listI2C [10, 20, 30]).requestFrom
          (Nunchuk.mk ([] : List Nat) [1, 2, 3, 4, 5, 6]).m_Wire 0x52 6) j) ≠ 0) ∧
    ((listI2C [10, 20, 30]).available
      (iterRead (listI2C [10, 20, 30])
        ((listI2C [10, 20, 30]).requestFrom
          (Nunchuk.mk ([] : List Nat) [1, 2, 3, 4, 5, 6]).m_Wire 0x52 6) 3) = 0) ∧
    (∃ nk' evs, Nunchuk.read (listI2C [10, 20, 30]) Mode.plain
        (Nunchuk.mk ([] : List Nat) [1, 2, 3, 4, 5, 6]) = some (false, nk', evs) ∧
      (∀ j, j < 3 → nk'.m_NunchukData.getD j 0 =
        decodeByte Mode.plain (nthByte (listI2C [10, 20, 30])
          ((listI2C [10, 20, 30]).requestFrom
            (Nunchuk.mk ([] : List Nat) [1, 2, 3, 4, 5, 6]).m_Wire 0x52 6) j)) ∧
      (∀ p, 3 ≤ p → p < 6 → nk'.m_NunchukData.getD p 0 =
        (Nunchuk.mk ([] : List Nat) [1, 2, 3, 4, 5, 6]).m_NunchukData.getD p 0) ∧
      evs.count (Event.start 0x52) = 1 ∧
      evs.count (Event.write 0x00) = 1 ∧
      evs.count Event.stop = 1) :=
  ⟨rfl, by decide, by decide, by decide,
    read_partial_frame (listI2C [10, 20, 30]) Mode.plain
      (Nunchuk.mk ([] : List Nat) [1, 2, 3, 4, 5, 6]) rfl 3 (by decide)
      (by decide) (by decide)⟩

/-- C8: every invocation of read, whether it obtains zero, some or all six
bytes, ends by issuing exactly one re-arm transaction (start 0x52, write of
the single byte 0x00, stop) after the byte consumption loop; the re-arm is
never skipped and never issued more than once per call. -/
theorem read_rearm_exactly_once {σ : Type} (w : I2C σ) (mode : Mode)
    (nk : Nunchuk σ) (h : nk.m_NunchukData.length = 6) :
    ∃ ok nk' evs, Nunchuk.read w mode nk = some (ok, nk', evs) ∧
      ∃ n, n ≤ 6 ∧
        evs = Event.requestFrom 0x52 6 ::
          (List.replicate n Event.readByte ++
            [Event.start 0x52, Event.write 0x00, Event.stop]) ∧
        evs.count (Event.start 0x52) = 1 ∧
        evs.count (Event.write 0x00) = 1 ∧
        evs.count Event.stop = 1 := by
  obtain ⟨n, buf', hle, heq, hava, hstop, hlen, hunt, hstor⟩ := read_spec w mode nk h
  exact ⟨_, _, _, heq, n, hle, rfl,
    count_start_events n, count_write_events n, count_stop_events n⟩

theorem read_rearm_exactly_once_witness :
    (Nunchuk.mk ([] : List Nat) [0, 0, 0, 0, 0, 0]).m_NunchukData.length = 6 ∧
    (∃ ok nk' evs, Nunchuk.read (listI2C [5]) Mode.plain
        (Nunchuk.mk ([] : List Nat) [0, 0, 0, 0, 0, 0]) = some (ok, nk', evs) ∧
      ∃ n, n ≤ 6 ∧
        evs = Event.requestFrom 0x52 6 ::
          (List.replicate n Event.readByte ++
            [Event.start 0x52, Event.write 0x00, Event.stop]) ∧
        evs.count (Event.start 0x52) = 1 ∧
        evs.count (Event.write 0x00) = 1 ∧
        evs.count Event.stop = 1) :=
  ⟨rfl, read_rearm_exactly_once (listI2C [5]) Mode.plain
    (Nunchuk.mk ([] : List Nat) [0, 0, 0, 0, 0, 0]) rfl⟩

/-- C10: for every transport behavior, including available reporting
arbitrarily many bytes, read stores bytes only at frame indices 0 through 5
(the out of bounds branch of the frame store is unreachable, so the result is
never none and the buffer keeps length six), calls the transport read at most
six times per invocation, and calls it only when available reported a nonzero
count in that loop iteration. -/
theorem read_safety {σ : Type} (w : I2C σ) (mode : Mode) (nk : Nunchuk σ)
    (h : nk.m_NunchukData.length = 6) :
    Nunchuk.read w mode nk ≠ none ∧
    ∃ ok nk' evs, Nunchuk.read w mode nk = some (ok, nk', evs) ∧
      nk'.m_NunchukData.length = 6 ∧
      evs.count Event.readByte ≤ 6 ∧
      (∀ j, j < evs.count Event.readByte →
        w.available (iterRead w (w.requestFrom nk.m_Wire 0x52 6) j) ≠ 0) := by
  obtain ⟨n, buf', hle, heq, hava, hstop, hlen, hunt, hstor⟩ := read_spec w mode nk h
  constructor
  · rw [heq]
    exact fun hc => Option.noConfusion hc
  · refine ⟨_, _, _, heq, hlen, ?_, ?_⟩
    · rw [count_readByte_events n]
      exact hle
    · rw [count_readByte_events n]
      exact hava

theorem read_safety_witness :
    (Nunchuk.mk ([] : List Nat) [0, 0, 0, 0, 0, 0]).m_NunchukData.length = 6 ∧
    (Nunchuk.read (listI2C [1, 2, 3, 4, 5, 6, 7, 8]) Mode.plain
        (Nunchuk.mk ([] : List Nat) [0, 0, 0, 0, 0, 0]) ≠ none ∧
      ∃ ok nk' evs, Nunchuk.read (listI2C [1, 2, 3, 4, 5, 6, 7, 8]) Mode.plain
          (Nunchuk.mk ([] : List Nat) [0, 0, 0, 0, 0, 0]) = some (ok, nk', evs) ∧
        nk'.m_NunchukData.length = 6 ∧
        evs.count Event.readByte ≤ 6 ∧
        (∀ j, j < evs.count Event.readByte →
          (listI2C [1, 2, 3, 4, 5, 6, 7, 8]).available
            (iterRead (listI2C [1, 2, 3, 4, 5, 6, 7, 8])
              ((listI2C [1, 2, 3, 4, 5, 6, 7, 8]).requestFrom
                (Nunchuk.mk ([] : List Nat) [0, 0, 0, 0, 0, 0]).m_Wire 0x52 6) j) ≠ 0)) :=
  ⟨rfl, read_safety (listI2C [1, 2, 3, 4, 5, 6, 7, 8]) Mode.plain
    (Nunchuk.mk ([] : List Nat) [0, 0, 0, 0, 0, 0]) rfl⟩

/-- C9 counterexample: in the end to end scenario of the spec (plain mode,
transport yielding 0x80 0x80 0x80 0x80 0x80 0x00 after the request), the
calibrated acceleration is not (8, 8, 8): the raw values are 512 and the
calibrated values are 0. -/
theorem endToEnd_accel_not_eight :
    ¬(endToEndNunchuk.getAccelX = 8 ∧ endToEndNunchuk.getAccelY = 8 ∧
      endToEndNunchuk.getAccelZ = 8) := by
  decide

/-- C9 amended: in the end to end scenario the read succeeds and the
accessors give calibrated joystick (0, 0), calibrated acceleration (0, 0, 0)
and buttons C and Z both true. -/
theorem endToEnd_scenario :
    ∃ nk' evs, endToEndRead = some (true, nk', evs) ∧
      nk'.getJoystickX = 0 ∧ nk'.getJoystickY = 0 ∧
      nk'.getAccelX = 0 ∧ nk'.getAccelY = 0 ∧ nk'.getAccelZ = 0 ∧
      nk'.getButtonC = true ∧ nk'.getButtonZ = true := by
  refine ⟨Nunchuk.mk [] [128, 128, 128, 128, 128, 0],
    [Event.requestFrom 0x52 6, Event.readByte, Event.readByte, Event.readByte,
      Event.readByte, Event.readByte, Event.readByte, Event.start 0x52,
      Event.write 0x00, Event.stop], ?_, ?_, ?_, ?_, ?_, ?_, ?_, ?_⟩ <;> decide
